import Mathlib

/-
Verification of the stroke-prediction data-processing pipeline
(scripts/data_processing.py) against its design specification.

The pipeline operates on an in-memory table of patient records.  We embed
the table as a list of strongly-typed records.  Continuous measurements
(age, glucose, BMI) are modelled as exact rationals; the raw BMI column,
which in the source data may hold a numeric token, the missing-value
sentinel, or an arbitrary unparseable token, is modelled by the inductive
type BMIVal.  A coerced-but-missing value (float NaN in the original) is
BMIVal.nan; pandas to_numeric with coercion maps every unparseable token
to NaN, which coerceBmi mirrors.  Grouping columns are functions from
records to Option String: a none key models a missing grouping value,
which pandas groupby silently drops.
-/

/-- Exact rational addition, written through Rat.divInt so that the
kernel can evaluate it on closed inputs; qAdd_eq proves it is ordinary
addition on ℚ. -/
def qAdd (a b : ℚ) : ℚ :=
  Rat.divInt (a.num * b.den + b.num * a.den) ((a.den : ℤ) * (b.den : ℤ))

/-- Exact rational subtraction through Rat.divInt; qSub_eq proves it is
ordinary subtraction on ℚ. -/
def qSub (a b : ℚ) : ℚ :=
  Rat.divInt (a.num * b.den - b.num * a.den) ((a.den : ℤ) * (b.den : ℤ))

/-- Exact rational multiplication through Rat.divInt; qMul_eq proves it
is ordinary multiplication on ℚ. -/
def qMul (a b : ℚ) : ℚ :=
  Rat.divInt (a.num * b.num) ((a.den : ℤ) * (b.den : ℤ))

/-- Exact rational division through Rat.divInt, with the division-by-zero
convention of ℚ; qDiv_eq proves it is ordinary division on ℚ. -/
def qDiv (a b : ℚ) : ℚ :=
  Rat.divInt (a.num * b.den) ((a.den : ℤ) * b.num)

/-- Raw value of the BMI column: a numeric value, the missing value
(sentinel token or float NaN), or an unparseable non-sentinel token. -/
inductive BMIVal where
  | num (x : ℚ)
  | nan
  | invalid
deriving DecidableEq

/-- One row of the table: one subject, with the schema of the stroke
dataset. -/
structure Record where
  id : ℕ
  gender : String
  age : ℚ
  hypertension : Bool
  heart_disease : Bool
  ever_married : String
  work_type : String
  residence_type : String
  avg_glucose_level : ℚ
  bmi : BMIVal
  smoking_status : String
  stroke : Bool
deriving DecidableEq

/-- Numeric reading of a BMI cell, as produced by pd.to_numeric with
error coercion: numeric tokens parse, everything else becomes missing. -/
def to_numeric : BMIVal → Option ℚ
  | BMIVal.num x => some x
  | BMIVal.nan => none
  | BMIVal.invalid => none

/-- The BMI cell after the coercing numeric conversion: numeric values
survive, the sentinel and any unparseable token both become NaN. -/
def coerceBmi : BMIVal → BMIVal
  | BMIVal.num x => BMIVal.num x
  | _ => BMIVal.nan

/-- Apply the coercing numeric conversion to the BMI field of a record,
leaving every other field unchanged. -/
def coerceRec (r : Record) : Record :=
  { r with bmi := coerceBmi r.bmi }

/-- The originally non-missing numeric BMI values of a table, in order. -/
def bmiValues (df : List Record) : List ℚ :=
  df.filterMap (fun r => to_numeric r.bmi)

/-- Insert a rational into a sorted list, keeping it sorted. -/
def insertSorted (x : ℚ) : List ℚ → List ℚ
  | [] => [x]
  | y :: ys => if x ≤ y then x :: y :: ys else y :: insertSorted x ys

/-- Insertion sort for rationals. -/
def sortRats (l : List ℚ) : List ℚ :=
  l.foldr insertSorted []

/-- Median in the sense of pandas Series.median with NaN skipped by the
caller: none on an empty list, the middle element of the sorted list for
odd length, the mean of the two middle elements for even length. -/
def median (l : List ℚ) : Option ℚ :=
  let s := sortRats l
  if s.length = 0 then none
  else if s.length % 2 = 1 then some (s.getD (s.length / 2) 0)
  else some (qDiv (qAdd (s.getD (s.length / 2 - 1) 0) (s.getD (s.length / 2) 0)) 2)

/-- The BMI median the cleaner computes: the median of the numeric values
of the coerced BMI column, missing values skipped. -/
def bmiMedian (df : List Record) : Option ℚ :=
  median ((df.map coerceRec).filterMap (fun r => to_numeric r.bmi))

/-- fillna with the given fill value on the BMI field of one record: a
missing BMI becomes the fill value when there is one; everything else is
left alone. -/
def fillRec (m : Option ℚ) (r : Record) : Record :=
  match r.bmi, m with
  | BMIVal.nan, some mv => { r with bmi := BMIVal.num mv }
  | _, _ => r

/-- clean_stroke_data: coerce the BMI column to numeric, fill missing BMI
with the median of the coerced column, then drop records whose gender is
the rare third category. -/
def clean_stroke_data (df : List Record) : List Record :=
  ((df.map coerceRec).map (fillRec (bmiMedian df))).filter
    (fun r => r.gender != "Other")

/-- True when the BMI field of a record holds an actual number. -/
def hasNumericBmi (r : Record) : Bool :=
  match r.bmi with
  | BMIVal.num _ => true
  | _ => false

/-- A record with its BMI field blanked, used to state that an operation
changes nothing outside the BMI field. -/
def forgetBmi (r : Record) : Record :=
  { r with bmi := BMIVal.nan }

/-- The six age-group labels, in bin order. -/
def ageLabels : List String :=
  ["0-18", "19-30", "31-45", "46-60", "61-75", "75+"]

/-- pd.cut on the age column with bins [0,18,30,45,60,75,100], labelled
by ageLabels, include_lowest set: intervals are left-open right-closed
except that the first one also contains its lower bound; ages outside
the outermost bounds get no label. -/
def get_age_group (age : ℚ) : Option String :=
  if 0 ≤ age ∧ age ≤ 18 then some "0-18"
  else if 18 < age ∧ age ≤ 30 then some "19-30"
  else if 30 < age ∧ age ≤ 45 then some "31-45"
  else if 45 < age ∧ age ≤ 60 then some "46-60"
  else if 60 < age ∧ age ≤ 75 then some "61-75"
  else if 75 < age ∧ age ≤ 100 then some "75+"
  else none

/-- get_age_groups: annotate every record with its age-group label. -/
def get_age_groups (df : List Record) : List (Record × Option String) :=
  df.map (fun r => (r, get_age_group r.age))

/-- Strict less-than between a BMI cell and a rational threshold, with
the comparison semantics of the source runtime: a numeric value compares
normally, the float NaN of a missing value compares false against
everything, and comparing an unparseable string token with a number is a
type error (none). -/
def bmiLt (b : BMIVal) (c : ℚ) : Option Bool :=
  match b with
  | BMIVal.num x => some (decide (x < c))
  | BMIVal.nan => some false
  | BMIVal.invalid => none

/-- categorize_bmi: the if / elif / elif / else chain of the source, with
thresholds 18.5, 25, 30 compared by bmiLt. -/
def categorize_bmi (b : BMIVal) : Option String :=
  match bmiLt b (Rat.divInt 37 2) with
  | none => none
  | some true => some "Underweight"
  | some false =>
    match bmiLt b 25 with
    | none => none
    | some true => some "Normal"
    | some false =>
      match bmiLt b 30 with
      | none => none
      | some true => some "Overweight"
      | some false => some "Obese"

/-- get_bmi_category: annotate every record with its BMI-category label. -/
def get_bmi_category (df : List Record) : List (Record × Option String) :=
  df.map (fun r => (r, categorize_bmi r.bmi))

/-- Floor of a rational: Euclidean division of the numerator by the
(positive) denominator. -/
def ratFloor (q : ℚ) : ℤ :=
  Int.ediv q.num (q.den : ℤ)

/-- Round a rational to the nearest integer, ties to the even integer:
the rounding applied by the numeric runtime of the source. -/
def roundHalfEven (q : ℚ) : ℤ :=
  let f := ratFloor q
  let frac := qSub q ((f : ℤ) : ℚ)
  if frac < Rat.divInt 1 2 then f
  else if Rat.divInt 1 2 < frac then f + 1
  else if f % 2 = 0 then f else f + 1

/-- Round a rational to two decimal places, ties to even. -/
def round2 (q : ℚ) : ℚ :=
  qDiv ((roundHalfEven (qMul q 100) : ℤ) : ℚ) 100

/-- One output row of the per-group aggregation: grouping value, stroke
count, total count, derived no-stroke count and stroke rate. -/
structure AggRow where
  value : String
  stroke_count : ℕ
  total_count : ℕ
  no_stroke_count : ℕ
  stroke_rate : ℚ
deriving DecidableEq

/-- The distinct values of a list of keys, first occurrences kept, in
order of first appearance. -/
def distinctVals : List String → List String
  | [] => []
  | k :: ks => k :: (distinctVals ks).filter (fun v => v != k)

/-- get_stats_by_column applied to a plain (non-categorical) grouping
column, such as gender, smoking_status, work_type, residence type or the
0/1 risk indicators: groupby then ranges over the distinct observed
values of the column (records with a missing grouping value are dropped,
as pandas groupby drops NaN keys) and computes for each group the stroke
count (sum of the 0/1 outcome), the group size, the derived no-stroke
count, and the stroke rate as a percentage rounded to two decimals.
For the Categorical age-group column produced by pd.cut the same source
function behaves differently; that case is modelled separately by
get_stats_by_cut below. -/
def get_stats_by_column (df : List Record) (col : Record → Option String) :
    List AggRow :=
  (distinctVals (df.filterMap col)).map (fun v =>
    let g := df.filter (fun r => col r == some v)
    { value := v
      stroke_count := g.countP (fun r => r.stroke)
      total_count := g.length
      no_stroke_count := g.length - g.countP (fun r => r.stroke)
      stroke_rate :=
        round2 (qMul (qDiv ((g.countP (fun r => r.stroke) : ℕ) : ℚ)
          (((g.length : ℕ) : ℚ))) 100) })

/-- One output row of the per-group aggregation over a Categorical
grouping column. Identical to AggRow except that the rate field can be
the float NaN (modelled as none), which the source silently produces for
a zero-count group. -/
structure CatAggRow where
  value : String
  stroke_count : ℕ
  total_count : ℕ
  no_stroke_count : ℕ
  stroke_rate : Option ℚ
deriving DecidableEq

/-- get_stats_by_column applied to a Categorical grouping column: the
age_group column produced by pd.cut with the fixed six-label category
list. Under the long-standing pandas default observed=False, groupby
emits one row per category, in category order, whether or not any record
carries it (records whose key is missing are still dropped). A category
with no records gets stroke sum 0 and count 0, and the rate expression
0/0 x 100 is then silently evaluated by the float arithmetic to NaN
(modelled as none) rather than failing; an occupied category gets the
usual rounded percentage. -/
def get_stats_by_cut (df : List Record) (col : Record → Option String)
    (cats : List String) : List CatAggRow :=
  cats.map (fun v =>
    let g := df.filter (fun r => col r == some v)
    { value := v
      stroke_count := g.countP (fun r => r.stroke)
      total_count := g.length
      no_stroke_count := g.length - g.countP (fun r => r.stroke)
      stroke_rate :=
        if g.length = 0 then none
        else some (round2 (qMul (qDiv ((g.countP (fun r => r.stroke) : ℕ) : ℚ)
          (((g.length : ℕ) : ℚ))) 100)) })

/-- The whole-table summary of get_stroke_stats. -/
structure StrokeStats where
  total_patients : ℕ
  stroke_cases : ℕ
  no_stroke_cases : ℕ
  stroke_rate : ℚ
deriving DecidableEq

/-- get_stroke_stats: table size, stroke count, derived no-stroke count,
and the stroke rate as a percentage rounded to two decimals. -/
def get_stroke_stats (df : List Record) : StrokeStats :=
  { total_patients := df.length
    stroke_cases := df.countP (fun r => r.stroke)
    no_stroke_cases := df.length - df.countP (fun r => r.stroke)
    stroke_rate :=
      round2 (qMul (qDiv ((df.countP (fun r => r.stroke) : ℕ) : ℚ)
        (((df.length : ℕ) : ℚ))) 100) }

/-- A baseline sample record used in concrete instances. -/
def rBase : Record :=
  { id := 1
    gender := "Male"
    age := 40
    hypertension := false
    heart_disease := false
    ever_married := "Yes"
    work_type := "Private"
    residence_type := "Urban"
    avg_glucose_level := 90
    bmi := BMIVal.num 25
    smoking_status := "never smoked"
    stroke := false }

/-- A sample record with a positive outcome. -/
def rStroke : Record :=
  { rBase with id := 2, gender := "Female", bmi := BMIVal.num 30, stroke := true }

/-- A sample record of the rare third gender category. -/
def rOther : Record :=
  { rBase with id := 3, gender := "Other" }

/-- A sample record whose BMI is missing. -/
def rMissing : Record :=
  { rBase with id := 4, bmi := BMIVal.nan }

/-- A sample record whose BMI cell holds an unparseable non-sentinel
token. -/
def rInvalid : Record :=
  { rBase with id := 5, bmi := BMIVal.invalid }

/-- A sample record whose age lies outside the outermost age bin. -/
def rOld : Record :=
  { rBase with id := 6, age := 150 }

/-- A 100-record table with exactly 5 positive outcomes. -/
def exTable100 : List Record :=
  List.replicate 95 rBase ++ List.replicate 5 rStroke

/-- The gender column as a grouping column. -/
def genderCol (r : Record) : Option String :=
  some r.gender

/-- The aggregation row produced for the single-record table [rBase]
grouped by gender. -/
def rowMale : AggRow :=
  { value := "Male", stroke_count := 0, total_count := 1,
    no_stroke_count := 1, stroke_rate := 0 }

/-- The aggregation row of the Female group of [rBase, rStroke] grouped
by gender. -/
def rowFemale : AggRow :=
  { value := "Female", stroke_count := 1, total_count := 1,
    no_stroke_count := 0, stroke_rate := 100 }

/-- The single aggregation row of exTable100 grouped by a constant
column: 5 positives among 100 records, rate exactly 5. -/
def rowAll100 : AggRow :=
  { value := "all", stroke_count := 5, total_count := 100,
    no_stroke_count := 95, stroke_rate := 5 }

/-- The row the categorical age-group aggregation of [rBase] emits for
the unoccupied 75+ bin: zero counts and a silently computed NaN rate. -/
def rowEmpty75 : CatAggRow :=
  { value := "75+", stroke_count := 0, total_count := 0,
    no_stroke_count := 0, stroke_rate := none }

/-- The numerator of a rational is the rational times its denominator. -/
theorem num_eq_mul_den (a : ℚ) : (a.num : ℚ) = a * (a.den : ℚ) := by
  have ha : ((a.den : ℚ)) ≠ 0 := by exact_mod_cast a.den_nz
  field_simp [Rat.num_div_den a]

/-- qAdd is ordinary addition on ℚ. -/
theorem qAdd_eq (a b : ℚ) : qAdd a b = a + b := by
  have ha : ((a.den : ℚ)) ≠ 0 := by exact_mod_cast a.den_nz
  have hb : ((b.den : ℚ)) ≠ 0 := by exact_mod_cast b.den_nz
  rw [qAdd, Rat.divInt_eq_div]
  push_cast
  rw [div_eq_iff (mul_ne_zero ha hb), num_eq_mul_den, num_eq_mul_den]
  ring

/-- qSub is ordinary subtraction on ℚ. -/
theorem qSub_eq (a b : ℚ) : qSub a b = a - b := by
  have ha : ((a.den : ℚ)) ≠ 0 := by exact_mod_cast a.den_nz
  have hb : ((b.den : ℚ)) ≠ 0 := by exact_mod_cast b.den_nz
  rw [qSub, Rat.divInt_eq_div]
  push_cast
  rw [div_eq_iff (mul_ne_zero ha hb), num_eq_mul_den, num_eq_mul_den]
  ring

/-- qMul is ordinary multiplication on ℚ. -/
theorem qMul_eq (a b : ℚ) : qMul a b = a * b := by
  have ha : ((a.den : ℚ)) ≠ 0 := by exact_mod_cast a.den_nz
  have hb : ((b.den : ℚ)) ≠ 0 := by exact_mod_cast b.den_nz
  rw [qMul, Rat.divInt_eq_div]
  push_cast
  rw [div_eq_iff (mul_ne_zero ha hb), num_eq_mul_den, num_eq_mul_den]
  ring

/-- qDiv is ordinary division on ℚ, division by zero giving zero. -/
theorem qDiv_eq (a b : ℚ) : qDiv a b = a / b := by
  have ha : ((a.den : ℚ)) ≠ 0 := by exact_mod_cast a.den_nz
  rcases eq_or_ne b 0 with hb | hb
  · subst hb
    simp [qDiv, Rat.divInt_eq_div]
  · have hbn : ((b.num : ℚ)) ≠ 0 := by
      exact_mod_cast Rat.num_ne_zero.mpr hb
    rw [qDiv, Rat.divInt_eq_div]
    push_cast
    rw [div_eq_div_iff (mul_ne_zero ha hbn) hb, num_eq_mul_den, num_eq_mul_den]
    ring

/-- Membership in the distinct-value list is membership in the original
list. -/
theorem mem_distinctVals (a : String) :
    ∀ l : List String, a ∈ distinctVals l ↔ a ∈ l := by
  intro l
  induction l with
  | nil => simp [distinctVals]
  | cons k ks ih =>
    rcases eq_or_ne a k with hk | hk
    · subst hk
      simp [distinctVals]
    · simp [distinctVals, List.mem_filter, ih, bne_iff_ne, hk]

/-- The distinct-value list has no duplicates. -/
theorem nodup_distinctVals : ∀ l : List String, (distinctVals l).Nodup := by
  intro l
  induction l with
  | nil => simp [distinctVals]
  | cons k ks ih =>
    rw [distinctVals, List.nodup_cons]
    constructor
    · intro hk
      have := (List.mem_filter.mp hk).2
      simp [bne_iff_ne] at this
    · exact ih.filter _

/-- Reading the BMI cell numerically commutes with the coercing
conversion. -/
theorem to_numeric_coerceBmi (b : BMIVal) :
    to_numeric (coerceBmi b) = to_numeric b := by
  cases b <;> rfl

/-- Rewriting the BMI field with its own value changes nothing. -/
theorem bmi_set_self (r : Record) : { r with bmi := r.bmi } = r := by
  cases r
  rfl

/-- Records whose BMI is not an unparseable token are fixed by the
coercing conversion. -/
theorem coerceRec_eq_self (r : Record) (h : r.bmi ≠ BMIVal.invalid) :
    coerceRec r = r := by
  cases r with
  | mk i g a h1 h2 em wt rt gl b ss st =>
    cases b with
    | num x => rfl
    | nan => rfl
    | invalid => exact absurd rfl h

/-- Filling with no fill value changes nothing. -/
theorem fillRec_none (r : Record) : fillRec none r = r := by
  cases r with
  | mk i g a h1 h2 em wt rt gl b ss st => cases b <;> rfl

/-- A record whose BMI is already numeric is fixed by filling. -/
theorem fillRec_of_num (m : Option ℚ) (r : Record) (x : ℚ)
    (h : r.bmi = BMIVal.num x) : fillRec m r = r := by
  cases r with
  | mk i g a h1 h2 em wt rt gl b ss st =>
    cases b <;> cases m <;> first | rfl | exact absurd h (by simp)

/-- The gender field is untouched by the coercing conversion. -/
theorem gender_coerceRec (r : Record) : (coerceRec r).gender = r.gender := rfl

/-- The gender field is untouched by filling. -/
theorem gender_fillRec (m : Option ℚ) (r : Record) :
    (fillRec m r).gender = r.gender := by
  cases r with
  | mk i g a h1 h2 em wt rt gl b ss st => cases b <;> cases m <;> rfl

/-- Outside the BMI field, coercion followed by filling changes
nothing. -/
theorem forgetBmi_fillRec_coerceRec (m : Option ℚ) (r : Record) :
    forgetBmi (fillRec m (coerceRec r)) = forgetBmi r := by
  cases r with
  | mk i g a h1 h2 em wt rt gl b ss st => cases b <;> cases m <;> rfl

/-- The BMI cell produced by coercing and filling: missing and
unparseable cells become the fill value when there is one, numeric cells
keep their value. -/
theorem bmi_fillRec_coerceRec_of_missing (mv : ℚ) (r : Record)
    (h : to_numeric r.bmi = none) :
    (fillRec (some mv) (coerceRec r)).bmi = BMIVal.num mv := by
  cases r with
  | mk i g a h1 h2 em wt rt gl b ss st =>
    cases b with
    | num x => exact absurd h (by simp [to_numeric])
    | nan => rfl
    | invalid => rfl

/-- A numeric BMI cell survives coercing and filling unchanged. -/
theorem bmi_fillRec_coerceRec_of_num (m : Option ℚ) (r : Record) (x : ℚ)
    (h : to_numeric r.bmi = some x) :
    (fillRec m (coerceRec r)).bmi = BMIVal.num x := by
  cases r with
  | mk i g a h1 h2 em wt rt gl b ss st =>
    cases b with
    | num y =>
      have hx : y = x := by
        simpa [to_numeric] using h
      subst hx
      cases m <;> rfl
    | nan => exact absurd h (by simp [to_numeric])
    | invalid => exact absurd h (by simp [to_numeric])

/-- Inserting into a sorted list grows its length by one. -/
theorem length_insertSorted (x : ℚ) :
    ∀ l : List ℚ, (insertSorted x l).length = l.length + 1 := by
  intro l
  induction l with
  | nil => rfl
  | cons y ys ih =>
    rw [insertSorted]
    split
    · rfl
    · simp [List.length_cons, ih]

/-- Insertion sort preserves length. -/
theorem length_sortRats : ∀ l : List ℚ, (sortRats l).length = l.length := by
  intro l
  induction l with
  | nil => rfl
  | cons x xs ih =>
    rw [sortRats, List.foldr_cons, ← sortRats, length_insertSorted, ih,
      List.length_cons]

/-- The median is undefined exactly on the empty list. -/
theorem median_eq_none_iff (l : List ℚ) : median l = none ↔ l = [] := by
  rw [median]
  simp only [length_sortRats]
  rcases l with _ | ⟨x, xs⟩
  · simp
  · simp only [List.length_cons]
    split
    · omega
    · split <;> simp

/-- The median the cleaner computes is the median of the originally
non-missing BMI values. -/
theorem bmiMedian_eq (df : List Record) : bmiMedian df = median (bmiValues df) := by
  rw [bmiMedian, bmiValues, List.filterMap_map]
  have hfun : ((fun r => to_numeric r.bmi) ∘ coerceRec) =
      (fun r : Record => to_numeric r.bmi) := by
    funext r
    exact to_numeric_coerceBmi r.bmi
  rw [hfun]

/-- A map whose function fixes every element of the list is the
identity. -/
theorem map_eq_self_of (l : List α) (f : α → α) (h : ∀ a ∈ l, f a = a) :
    l.map f = l := by
  induction l with
  | nil => rfl
  | cons x t ih =>
    simp only [List.map_cons, h x (by simp)]
    rw [ih (fun a ha => h a (by simp [ha]))]

/-- clean as one pass: keep the records of the two majority gender
categories, in order, each with its BMI coerced and median-filled. -/
theorem clean_eq (df : List Record) :
    clean_stroke_data df =
      (df.filter (fun r => r.gender != "Other")).map
        (fun r => fillRec (bmiMedian df) (coerceRec r)) := by
  rw [clean_stroke_data, List.map_map, List.filter_map]
  congr 1
  apply List.filter_congr
  intro r _
  simp [Function.comp, gender_fillRec, gender_coerceRec]

/-- Coercion followed by filling never leaves an unparseable token in
the BMI field. -/
theorem bmi_fillRec_coerceRec_ne_invalid (m : Option ℚ) (r : Record) :
    (fillRec m (coerceRec r)).bmi ≠ BMIVal.invalid := by
  cases r with
  | mk i g a h1 h2 em wt rt gl b ss st => cases b <;> cases m <;> simp [coerceRec, coerceBmi, fillRec]

/-- A BMI cell that reads as missing and is not an unparseable token is
the NaN cell. -/
theorem bmi_eq_nan_of (b : BMIVal) (h1 : to_numeric b = none)
    (h2 : b ≠ BMIVal.invalid) : b = BMIVal.nan := by
  cases b with
  | num x => exact absurd h1 (by simp [to_numeric])
  | nan => rfl
  | invalid => exact absurd rfl h2

/-- Summing a pointwise sum of two maps splits into two sums. -/
theorem sum_map_nat_add (S : List String) (f g : String → ℕ) :
    (S.map (fun v => f v + g v)).sum = (S.map f).sum + (S.map g).sum := by
  induction S with
  | nil => rfl
  | cons v vs ih =>
    simp only [List.map_cons, List.sum_cons, ih]
    omega

/-- An indicator of a key absent from the list sums to zero. -/
theorem sum_map_ite_not_mem (S : List String) (a : String) (c : ℕ)
    (ha : a ∉ S) :
    (S.map (fun v => if a = v then c else 0)).sum = 0 := by
  induction S with
  | nil => rfl
  | cons v vs ih =>
    have hav : a ≠ v := fun h => ha (h ▸ List.mem_cons_self v vs)
    have ha2 : a ∉ vs := fun h => ha (List.mem_cons_of_mem v h)
    simp [hav, ih ha2]

/-- An indicator of a key present in a duplicate-free list sums to the
indicated value. -/
theorem sum_map_ite_mem (S : List String) (a : String) (c : ℕ)
    (hnd : S.Nodup) (ha : a ∈ S) :
    (S.map (fun v => if a = v then c else 0)).sum = c := by
  induction S with
  | nil => exact absurd ha (by simp)
  | cons v vs ih =>
    rcases List.nodup_cons.mp hnd with ⟨hv, hnd2⟩
    rcases List.mem_cons.mp ha with h | h
    · subst h
      simp [sum_map_ite_not_mem vs a c hv]
    · have hav : a ≠ v := fun he => hv (he ▸ h)
      simp [hav, ih hnd2 h]

/-- Fibrewise counting: when every record keys into the duplicate-free
key list S, the per-group counts of any predicate sum to its count over
the whole table. -/
theorem sum_group_countP (col : Record → Option String) (p : Record → Bool) :
    ∀ (df : List Record) (S : List String), S.Nodup →
      (∀ r ∈ df, ∃ v ∈ S, col r = some v) →
      (S.map (fun v => (df.filter (fun x => col x == some v)).countP p)).sum
        = df.countP p := by
  intro df
  induction df with
  | nil =>
    intro S _ _
    simp
  | cons r t ih =>
    intro S hnd hmem
    rcases hmem r (List.mem_cons_self r t) with ⟨vr, hvrS, hcol⟩
    have hmap : S.map (fun v => ((r :: t).filter (fun x => col x == some v)).countP p)
        = S.map (fun v => (t.filter (fun x => col x == some v)).countP p
            + (if vr = v then (if p r then 1 else 0) else 0)) := by
      apply List.map_congr_left
      intro v hv
      rw [List.filter_cons]
      rcases eq_or_ne vr v with he | he
      · subst he
        have hb : (col r == some vr) = true := by
          rw [hcol]
          exact beq_self_eq_true _
        simp [hb, List.countP_cons]
      · have hb : (col r == some v) = false := by
          rw [hcol]
          simp [he]
        simp [hb, he]
    rw [hmap, sum_map_nat_add, sum_map_ite_mem S vr _ hnd hvrS,
      ih S hnd (fun a ha => hmem a (List.mem_cons_of_mem r ha)),
      List.countP_cons]

example : median [17, 22, 28, 33] = some 25 := by decide
example : median [25] = some 25 := by decide
example : get_age_group 18 = some "0-18" := by decide
example : get_age_group (Rat.divInt 180001 10000) = some "19-30" := by decide
example : get_age_group 101 = none := by decide
example : categorize_bmi BMIVal.nan = some "Obese" := by decide
example : round2 (qMul (qDiv 5 100) 100) = 5 := by decide
example : clean_stroke_data [rMissing] = [rMissing] := by decide

/-- C10: a record whose BMI value is missing (float NaN) is assigned the
label Obese by the BMI categorizer, because NaN fails every strict
less-than threshold comparison and the chain falls through to the final
branch; hence the categorizer applied to an uncleaned table silently
labels missing BMIs as Obese. -/
theorem bmi_category_nan_obese (df : List Record) (r : Record)
    (hr : r ∈ df) (hb : r.bmi = BMIVal.nan) :
    categorize_bmi r.bmi = some "Obese" ∧
      (r, some "Obese") ∈ get_bmi_category df := by
  have hc : categorize_bmi r.bmi = some "Obese" := by rw [hb]; rfl
  refine ⟨hc, ?_⟩
  rw [get_bmi_category]
  exact List.mem_map.mpr ⟨r, hr, by rw [hc]⟩

/-- Witness for C10 at the concrete record rMissing in a one-record
table. -/
theorem bmi_category_nan_obese_witness :
    rMissing ∈ [rMissing] ∧ rMissing.bmi = BMIVal.nan ∧
      (categorize_bmi rMissing.bmi = some "Obese" ∧
        (rMissing, some "Obese") ∈ get_bmi_category [rMissing]) :=
  ⟨by decide, by decide,
    bmi_category_nan_obese [rMissing] rMissing (by decide) (by decide)⟩

/-- C7 evaluation: on a table whose second record carries an unparseable
non-sentinel BMI token, clean returns normally and silently imputes the
median (25) into that record instead of failing: the coercing numeric
conversion conflates the unparseable token with legitimate
missingness. -/
theorem clean_coerces_invalid_bmi :
    clean_stroke_data [rBase, rInvalid] =
      [rBase, { rInvalid with bmi := BMIVal.num 25 }] := by decide

/-- C2 (amended: ages within the outermost bin boundaries 0 and 100):
every such age receives exactly one of the six fixed labels, the
assignment being a function of the age alone, with the boundary
behaviour of the inclusive-lowest binning: age 18 maps to 0-18, age
18.0001 maps to 19-30, age 100 maps to 75+. -/
theorem age_group_total (a : ℚ) (h0 : 0 ≤ a) (h1 : a ≤ 100) :
    get_age_group a ∈ ageLabels.map some ∧
      get_age_group 18 = some "0-18" ∧
      get_age_group (Rat.divInt 180001 10000) = some "19-30" ∧
      get_age_group 100 = some "75+" := by
  refine ⟨?_, by decide, by decide, by decide⟩
  rw [get_age_group]
  split_ifs with c1 c2 c3 c4 c5 c6
  · decide
  · decide
  · decide
  · decide
  · decide
  · decide
  · exfalso
    push_neg at c1 c2 c3 c4 c5 c6
    have k1 : 18 < a := c1 h0
    have k2 : 30 < a := c2 k1
    have k3 : 45 < a := c3 k2
    have k4 : 60 < a := c4 k3
    have k5 : 75 < a := c5 k4
    have k6 : 100 < a := c6 k5
    linarith

/-- Witness for C2 at the concrete age 50. -/
theorem age_group_total_witness :
    (0 : ℚ) ≤ 50 ∧ (50 : ℚ) ≤ 100 ∧
      (get_age_group 50 ∈ ageLabels.map some ∧
        get_age_group 18 = some "0-18" ∧
        get_age_group (Rat.divInt 180001 10000) = some "19-30" ∧
        get_age_group 100 = some "75+") :=
  ⟨by decide, by decide, age_group_total 50 (by decide) (by decide)⟩

/-- Counterexample to C2 as stated: age 101 is a perfectly defined age,
yet the age binning function assigns it none of the six labels (pd.cut
leaves values beyond the outermost bin unlabelled). -/
theorem age_group_total_cex :
    get_age_group 101 = none ∧ get_age_group 101 ∉ ageLabels.map some := by
  decide

/-- C5 (amended): for a plain, non-categorical grouping column, groups
arise only from observed values, so every aggregation row has a positive
total count and the rate division is never by zero. For a Categorical
grouping column (the pd.cut age groups under the pandas default
observed=False), a zero-count row IS produced for each unoccupied
category, and on it the code silently evaluates the rate 0/0 to NaN
rather than failing; an occupied category gets the usual rounded
rate. -/
theorem stats_degenerate_groups :
    (∀ (df : List Record) (col : Record → Option String) (row : AggRow),
      row ∈ get_stats_by_column df col → 0 < row.total_count)
    ∧ (∀ (df : List Record) (col : Record → Option String) (cats : List String)
        (row : CatAggRow), row ∈ get_stats_by_cut df col cats →
        row.stroke_rate =
          (if row.total_count = 0 then none
           else some (round2 (qMul (qDiv ((row.stroke_count : ℕ) : ℚ)
             ((row.total_count : ℕ) : ℚ)) 100)))) := by
  constructor
  · intro df col row hrow
    rw [get_stats_by_column] at hrow
    rcases List.mem_map.mp hrow with ⟨v, hv, hrv⟩
    have hv2 : v ∈ df.filterMap col := (mem_distinctVals v _).mp hv
    rcases List.mem_filterMap.mp hv2 with ⟨r, hr, hcr⟩
    have hmem : r ∈ df.filter (fun x => col x == some v) := by
      rw [List.mem_filter]
      exact ⟨hr, by rw [hcr]; exact beq_self_eq_true _⟩
    have hlen : 0 < (df.filter (fun x => col x == some v)).length :=
      List.length_pos.mpr (List.ne_nil_of_mem hmem)
    rw [← hrv]
    exact hlen
  · intro df col cats row hrow
    rw [get_stats_by_cut] at hrow
    rcases List.mem_map.mp hrow with ⟨v, _, hrv⟩
    rw [← hrv]

/-- Witness for C5: the gender grouping of [rBase] gives the positive
single-group row, and the categorical age grouping of [rBase] emits the
zero-count 75+ row whose rate is the silent NaN. -/
theorem stats_degenerate_groups_witness :
    (rowMale ∈ get_stats_by_column [rBase] genderCol ∧ 0 < rowMale.total_count)
    ∧ (rowEmpty75 ∈ get_stats_by_cut [rBase] (fun r => get_age_group r.age) ageLabels
        ∧ rowEmpty75.stroke_rate =
            (if rowEmpty75.total_count = 0 then none
             else some (round2 (qMul (qDiv ((rowEmpty75.stroke_count : ℕ) : ℚ)
               ((rowEmpty75.total_count : ℕ) : ℚ)) 100)))) :=
  ⟨⟨by decide, stats_degenerate_groups.1 [rBase] genderCol rowMale (by decide)⟩,
   ⟨by decide,
     stats_degenerate_groups.2 [rBase] (fun r => get_age_group r.age) ageLabels
       rowEmpty75 (by decide)⟩⟩

/-- Counterexample to C5 as stated: grouping the one-record table of a
40-year-old by the categorical age-group column produces, among its six
rows (one per pd.cut category, occupied or not), the 75+ row with total
count 0 — and on it the code silently computes the NaN rate instead of
failing: zero-count groups do occur and are not rejected. -/
theorem stats_degenerate_groups_cex :
    rowEmpty75 ∈ get_stats_by_cut [rBase] (fun r => get_age_group r.age) ageLabels
    ∧ rowEmpty75.total_count = 0 ∧ rowEmpty75.stroke_rate = none
    ∧ get_stats_by_cut [rBase] (fun r => get_age_group r.age) ageLabels =
        [{ value := "0-18", stroke_count := 0, total_count := 0,
           no_stroke_count := 0, stroke_rate := none },
         { value := "19-30", stroke_count := 0, total_count := 0,
           no_stroke_count := 0, stroke_rate := none },
         { value := "31-45", stroke_count := 0, total_count := 1,
           no_stroke_count := 1, stroke_rate := some 0 },
         { value := "46-60", stroke_count := 0, total_count := 0,
           no_stroke_count := 0, stroke_rate := none },
         { value := "61-75", stroke_count := 0, total_count := 0,
           no_stroke_count := 0, stroke_rate := none },
         rowEmpty75] := by
  decide

/-- C3: every aggregation row reports the number of positive-outcome
records of its group as the stroke count, the group size as the total
count, their difference as the no-stroke count, and the percentage
positive / total x 100 rounded to two decimals (ties to even, the one
consistent rounding rule of the pipeline) as the rate; and the pinned
example holds: a group of 100 records with 5 positive outcomes gets the
rate exactly 5. -/
theorem stats_row_correct :
    (∀ (df : List Record) (col : Record → Option String) (row : AggRow),
      row ∈ get_stats_by_column df col →
        row.stroke_count =
            (df.filter (fun r => col r == some row.value)).countP (fun r => r.stroke)
          ∧ row.total_count = (df.filter (fun r => col r == some row.value)).length
          ∧ row.no_stroke_count = row.total_count - row.stroke_count
          ∧ row.stroke_rate =
              round2 (qMul (qDiv ((row.stroke_count : ℕ) : ℚ)
                ((row.total_count : ℕ) : ℚ)) 100))
    ∧ get_stats_by_column exTable100 (fun _ => some "all") = [rowAll100] := by
  constructor
  · intro df col row hrow
    rw [get_stats_by_column] at hrow
    rcases List.mem_map.mp hrow with ⟨v, hv, hrv⟩
    rw [← hrv]
    exact ⟨rfl, rfl, rfl, rfl⟩
  · decide

/-- Witness for C3 at the Female row of the two-record table grouped by
gender. -/
theorem stats_row_correct_witness :
    rowFemale ∈ get_stats_by_column [rBase, rStroke] genderCol ∧
      (rowFemale.stroke_count =
          ([rBase, rStroke].filter
            (fun r => genderCol r == some rowFemale.value)).countP (fun r => r.stroke)
        ∧ rowFemale.total_count =
            ([rBase, rStroke].filter
              (fun r => genderCol r == some rowFemale.value)).length
        ∧ rowFemale.no_stroke_count = rowFemale.total_count - rowFemale.stroke_count
        ∧ rowFemale.stroke_rate =
            round2 (qMul (qDiv ((rowFemale.stroke_count : ℕ) : ℚ)
              ((rowFemale.total_count : ℕ) : ℚ)) 100)) :=
  ⟨by decide, stats_row_correct.1 [rBase, rStroke] genderCol rowFemale (by decide)⟩

/-- C6 (amended: for non-empty tables): aggregating with a constant
grouping key yields exactly one row, numerically identical field by
field to the whole-table summary of get_stroke_stats. -/
theorem const_group_matches_summary (df : List Record) (hne : df ≠ [])
    (c : String) :
    get_stats_by_column df (fun _ => some c) =
      [{ value := c
         stroke_count := (get_stroke_stats df).stroke_cases
         total_count := (get_stroke_stats df).total_patients
         no_stroke_count := (get_stroke_stats df).no_stroke_cases
         stroke_rate := (get_stroke_stats df).stroke_rate }] := by
  have hfm : df.filterMap (fun _ => some c) = df.map (fun _ => c) := by
    have h : (fun _ : Record => some c) = some ∘ (fun _ : Record => c) := rfl
    rw [h, List.filterMap_eq_map]
  have hkeys : distinctVals (df.filterMap (fun _ => some c)) = [c] := by
    rw [hfm]
    rcases df with _ | ⟨r, t⟩
    · exact absurd rfl hne
    · show distinctVals (c :: t.map (fun _ => c)) = [c]
      rw [distinctVals]
      have hnil : (distinctVals (t.map fun _ => c)).filter (fun v => v != c) = [] := by
        rw [List.filter_eq_nil_iff]
        intro a ha
        have ham : a ∈ t.map (fun _ => c) := (mem_distinctVals a _).mp ha
        have hac : a = c := by
          rcases List.mem_map.mp ham with ⟨_, _, h2⟩
          exact h2.symm
        simp [hac]
      rw [hnil]
  rw [get_stats_by_column, hkeys]
  simp only [List.map_cons, List.map_nil]
  have hpred : (fun r : Record => ((some c : Option String) == some c)) =
      (fun _ : Record => true) := by
    funext r
    exact beq_self_eq_true _
  rw [hpred, List.filter_true]
  rfl

/-- Witness for C6 on the one-record table [rBase] with constant key
all. -/
theorem const_group_matches_summary_witness :
    [rBase] ≠ ([] : List Record) ∧
      get_stats_by_column [rBase] (fun _ => some "all") =
        [{ value := "all"
           stroke_count := (get_stroke_stats [rBase]).stroke_cases
           total_count := (get_stroke_stats [rBase]).total_patients
           no_stroke_count := (get_stroke_stats [rBase]).no_stroke_cases
           stroke_rate := (get_stroke_stats [rBase]).stroke_rate }] :=
  ⟨by decide, const_group_matches_summary [rBase] (by decide) "all"⟩

/-- Counterexample to C6 as stated: on the empty table the constant-key
aggregation yields no row at all (there is no observed grouping value),
not one row identical to the whole-table summary. -/
theorem const_group_matches_summary_cex :
    get_stats_by_column ([] : List Record) (fun _ => some "all") = [] ∧
      (get_stats_by_column ([] : List Record) (fun _ => some "all")).length ≠ 1 := by
  decide

/-- C1 (amended: for tables with at least one parseable BMI value, so
that the median is defined): clean keeps exactly the majority-gender
records, replaces each missing BMI among them with the median m of the
originally non-missing BMI values of the whole input table, computed
once before any replacement, leaves parseable BMI values at their
numeric value, and afterwards no record of the result has a missing
BMI. -/
theorem clean_imputes_median (df : List Record) (m : ℚ)
    (hm : median (bmiValues df) = some m) :
    clean_stroke_data df =
      (df.filter (fun r => r.gender != "Other")).map
        (fun r => fillRec (some m) (coerceRec r))
    ∧ (clean_stroke_data df).all hasNumericBmi = true := by
  have hbm : bmiMedian df = some m := by rw [bmiMedian_eq]; exact hm
  have h1 : clean_stroke_data df =
      (df.filter (fun r => r.gender != "Other")).map
        (fun r => fillRec (some m) (coerceRec r)) := by
    rw [clean_eq, hbm]
  refine ⟨h1, ?_⟩
  rw [h1, List.all_eq_true]
  intro r hr
  rcases List.mem_map.mp hr with ⟨r0, hr0, hrr⟩
  rw [← hrr]
  cases hob : to_numeric r0.bmi with
  | some x =>
    rw [hasNumericBmi, bmi_fillRec_coerceRec_of_num (some m) r0 x hob]
  | none =>
    rw [hasNumericBmi, bmi_fillRec_coerceRec_of_missing m r0 hob]

/-- Witness for C1: on [rMissing, rBase], the original non-missing BMI
values are exactly [25], so the median 25 is imputed into the missing
record and the cleaned table has no missing BMI. -/
theorem clean_imputes_median_witness :
    median (bmiValues [rMissing, rBase]) = some 25 ∧
      (clean_stroke_data [rMissing, rBase] =
        ([rMissing, rBase].filter (fun r => r.gender != "Other")).map
          (fun r => fillRec (some 25) (coerceRec r))
      ∧ (clean_stroke_data [rMissing, rBase]).all hasNumericBmi = true) :=
  ⟨by decide, clean_imputes_median [rMissing, rBase] 25 (by decide)⟩

/-- Counterexample to C1 as stated: on a table whose only BMI value is
missing, the median of the (empty) non-missing set is undefined, fillna
does nothing, and the cleaned table still contains a missing BMI. -/
theorem clean_imputes_median_cex :
    clean_stroke_data [rMissing] = [rMissing] ∧
      (clean_stroke_data [rMissing]).all hasNumericBmi = false := by
  decide

/-- C4 (amended: for tables in which every record has a defined grouping
value): the per-group total counts sum to the table size and the
per-group stroke counts sum to the table-wide stroke count. -/
theorem stats_conservation (df : List Record) (col : Record → Option String)
    (hdef : df.all (fun r => (col r).isSome) = true) :
    ((get_stats_by_column df col).map (fun row => row.total_count)).sum = df.length
    ∧ ((get_stats_by_column df col).map (fun row => row.stroke_count)).sum
        = df.countP (fun r => r.stroke) := by
  have hmem : ∀ r ∈ df, ∃ v ∈ distinctVals (df.filterMap col), col r = some v := by
    intro r hr
    have hs : (col r).isSome = true := List.all_eq_true.mp hdef r hr
    rcases Option.isSome_iff_exists.mp hs with ⟨v, hv⟩
    exact ⟨v, (mem_distinctVals v _).mpr (List.mem_filterMap.mpr ⟨r, hr, hv⟩), hv⟩
  have hnd := nodup_distinctVals (df.filterMap col)
  constructor
  · have h := sum_group_countP col (fun _ => true) df
      (distinctVals (df.filterMap col)) hnd hmem
    have heq : ((get_stats_by_column df col).map (fun row => row.total_count)).sum
        = ((distinctVals (df.filterMap col)).map
            (fun v => (df.filter (fun x => col x == some v)).countP
              (fun _ => true))).sum := by
      rw [get_stats_by_column, List.map_map]
      congr 1
      apply List.map_congr_left
      intro v _
      exact (congrFun List.countP_true _).symm
    rw [heq, h]
    exact congrFun List.countP_true df
  · have h := sum_group_countP col (fun r => r.stroke) df
      (distinctVals (df.filterMap col)) hnd hmem
    have heq : ((get_stats_by_column df col).map (fun row => row.stroke_count)).sum
        = ((distinctVals (df.filterMap col)).map
            (fun v => (df.filter (fun x => col x == some v)).countP
              (fun r => r.stroke))).sum := by
      rw [get_stats_by_column, List.map_map]
      rfl
    rw [heq, h]

/-- Witness for C4 on the two-record table grouped by gender. -/
theorem stats_conservation_witness :
    ([rBase, rStroke].all (fun r => (genderCol r).isSome) = true) ∧
      (((get_stats_by_column [rBase, rStroke] genderCol).map
          (fun row => row.total_count)).sum = [rBase, rStroke].length
        ∧ ((get_stats_by_column [rBase, rStroke] genderCol).map
            (fun row => row.stroke_count)).sum
            = [rBase, rStroke].countP (fun r => r.stroke)) :=
  ⟨by decide, stats_conservation [rBase, rStroke] genderCol (by decide)⟩

/-- Counterexample to C4 as stated: grouping the one-record table of a
150-year-old by age group yields no row at all, because the age lies
outside every bin, the grouping value is missing, and pandas groupby
drops records with missing keys; the group totals then sum to 0, not to
the table size 1. -/
theorem stats_conservation_cex :
    ((get_stats_by_column [rOld] (fun r => get_age_group r.age)).map
      (fun row => row.total_count)).sum ≠ [rOld].length := by
  decide

/-- C8: under the gender schema of the dataset (labels Male, Female and
the rare Other), clean keeps exactly the records of the two majority
labels, in order, and alters nothing outside the BMI field of the kept
records. -/
theorem clean_gender_filter (df : List Record)
    (hschema : df.all (fun r =>
      r.gender == "Male" || r.gender == "Female" || r.gender == "Other") = true) :
    clean_stroke_data df =
      (df.filter (fun r => r.gender == "Male" || r.gender == "Female")).map
        (fun r => fillRec (bmiMedian df) (coerceRec r))
    ∧ (clean_stroke_data df).map forgetBmi =
        (df.filter (fun r => r.gender == "Male" || r.gender == "Female")).map
          forgetBmi := by
  have hfil : df.filter (fun r => r.gender != "Other")
      = df.filter (fun r => r.gender == "Male" || r.gender == "Female") := by
    apply List.filter_congr
    intro r hr
    have h3 := List.all_eq_true.mp hschema r hr
    have h4 : (r.gender = "Male" ∨ r.gender = "Female") ∨ r.gender = "Other" := by
      simpa using h3
    rcases h4 with (h | h) | h <;> rw [h] <;> decide
  have h1 : clean_stroke_data df =
      (df.filter (fun r => r.gender == "Male" || r.gender == "Female")).map
        (fun r => fillRec (bmiMedian df) (coerceRec r)) := by
    rw [clean_eq, hfil]
  refine ⟨h1, ?_⟩
  rw [h1, List.map_map]
  apply List.map_congr_left
  intro r _
  exact forgetBmi_fillRec_coerceRec _ r

/-- Witness for C8 on a three-record table holding all three gender
labels. -/
theorem clean_gender_filter_witness :
    ([rBase, rStroke, rOther].all (fun r =>
      r.gender == "Male" || r.gender == "Female" || r.gender == "Other") = true) ∧
      (clean_stroke_data [rBase, rStroke, rOther] =
        ([rBase, rStroke, rOther].filter
          (fun r => r.gender == "Male" || r.gender == "Female")).map
            (fun r => fillRec (bmiMedian [rBase, rStroke, rOther]) (coerceRec r))
      ∧ (clean_stroke_data [rBase, rStroke, rOther]).map forgetBmi =
          ([rBase, rStroke, rOther].filter
            (fun r => r.gender == "Male" || r.gender == "Female")).map forgetBmi) :=
  ⟨by decide, clean_gender_filter [rBase, rStroke, rOther] (by decide)⟩

/-- C9: clean is idempotent: cleaning an already cleaned table changes
nothing, whether or not the first pass had a median to impute. -/
theorem clean_idempotent (df : List Record) :
    clean_stroke_data (clean_stroke_data df) = clean_stroke_data df := by
  have hgen : ∀ r ∈ clean_stroke_data df, (r.gender != "Other") = true := by
    intro r hr
    rw [clean_stroke_data] at hr
    exact (List.mem_filter.mp hr).2
  have hninv : ∀ r ∈ clean_stroke_data df, r.bmi ≠ BMIVal.invalid := by
    intro r hr
    rw [clean_eq] at hr
    rcases List.mem_map.mp hr with ⟨r0, _, hrr⟩
    rw [← hrr]
    exact bmi_fillRec_coerceRec_ne_invalid _ r0
  have hco : (clean_stroke_data df).map coerceRec = clean_stroke_data df :=
    map_eq_self_of _ _ (fun r hr => coerceRec_eq_self r (hninv r hr))
  conv_lhs => rw [clean_stroke_data]
  rw [hco]
  cases hm : bmiMedian df with
  | some mv =>
    have hnum : ∀ r ∈ clean_stroke_data df, ∃ x, r.bmi = BMIVal.num x := by
      intro r hr
      rw [clean_eq, hm] at hr
      rcases List.mem_map.mp hr with ⟨r0, _, hrr⟩
      rw [← hrr]
      cases hob : to_numeric r0.bmi with
      | some x => exact ⟨x, bmi_fillRec_coerceRec_of_num _ r0 x hob⟩
      | none => exact ⟨mv, bmi_fillRec_coerceRec_of_missing mv r0 hob⟩
    have hfill : (clean_stroke_data df).map
        (fillRec (bmiMedian (clean_stroke_data df))) = clean_stroke_data df := by
      apply map_eq_self_of
      intro r hr
      rcases hnum r hr with ⟨x, hx⟩
      exact fillRec_of_num _ r x hx
    rw [hfill, List.filter_eq_self.mpr hgen]
  | none =>
    have h0 : (df.map coerceRec).filterMap (fun x => to_numeric x.bmi) = [] := by
      rw [bmiMedian] at hm
      exact (median_eq_none_iff _).mp hm
    have hall : ∀ r ∈ clean_stroke_data df, r.bmi = BMIVal.nan := by
      intro r hr
      rw [clean_eq, hm] at hr
      rcases List.mem_map.mp hr with ⟨r0, hr0, hrr⟩
      rw [← hrr, fillRec_none]
      apply bmi_eq_nan_of
      · have hmm : coerceRec r0 ∈ df.map coerceRec :=
          List.mem_map.mpr ⟨r0, (List.mem_filter.mp hr0).1, rfl⟩
        exact List.filterMap_eq_nil_iff.mp h0 _ hmm
      · cases hb : r0.bmi <;> simp [coerceRec, coerceBmi, hb]
    have hm2 : bmiMedian (clean_stroke_data df) = none := by
      rw [bmiMedian, hco, median_eq_none_iff, List.filterMap_eq_nil_iff]
      intro r hr
      rw [hall r hr]
      rfl
    rw [hm2]
    have hfill : (clean_stroke_data df).map (fillRec none) = clean_stroke_data df :=
      map_eq_self_of _ _ (fun r _ => fillRec_none r)
    rw [hfill, List.filter_eq_self.mpr hgen]
